import Mathlib

/-!
# Session store of oidc-auth-service

A shallow embedding of `storage/storage.go`: the session store that composes a
secure-cookie codec set with a pluggable persistence connector.

* Go `error` values are `Option GoError` (`none` is `nil`).
* The connector is an interface over a backend; it is embedded as a record of
  state-passing functions over an arbitrary backend state `σ`.
* `securecookie.EncodeMulti` and `securecookie.DecodeMulti` (cryptography of the
  gorilla library) are parameters of the embedding, collected in `securecookie.Lib`.
* Every call that leaves the store (connector, codec set, random source,
  `http.SetCookie`) is recorded, in program order, in a trace of `Event`s.
-/

/-- A byte (`uint8`). -/
abbrev Byte := Fin 256

/-- Go `error` values, as far as the store tells them apart: an error that
implements `securecookie.Error` (with the answer of its `IsInternal()`), or any
other error. -/
inductive GoError where
  | secureCookie (isInternal : Bool) (msg : String)
  | other (msg : String)
  deriving DecidableEq, Repr

namespace sessions

/-- Type `sessions.Options` of gorilla/sessions: the cookie attributes of a session. -/
structure Options where
  Path : String
  Domain : String
  MaxAge : Int
  Secure : Bool
  HttpOnly : Bool
  deriving DecidableEq, Repr

/-- Type `sessions.Session`: `Values` stands for the `map[interface{}]interface{}`,
`name` for the unexported field read through `Name()`. The `Options` pointer is
embedded as a value; `NewSession` leaves it zero and `Storage.New` sets it before
anything reads it. -/
structure Session where
  ID : String
  Values : List (String × String)
  Options : Options
  IsNew : Bool
  name : String
  deriving DecidableEq, Repr

/-- Function `sessions.NewSession(store, name)`: a zero session carrying the name. -/
def NewSession (name : String) : Session :=
  { ID := "", Values := [], Options := ⟨"", "", 0, false, false⟩, IsNew := false, name := name }

end sessions

namespace http

/-- Type `http.Cookie`, with the attributes `sessions.NewCookie` fills from the
options (the clock-derived `Expires` is left out). -/
structure Cookie where
  Name : String
  Value : String
  Path : String
  Domain : String
  MaxAge : Int
  Secure : Bool
  HttpOnly : Bool
  deriving DecidableEq, Repr

/-- An incoming request, as far as the store reads it: the cookies of its header. -/
structure Request where
  cookies : List Cookie
  deriving DecidableEq, Repr

/-- Method `r.Cookie(name)`: the first cookie of that name, `none` for `ErrNoCookie`. -/
def Request.Cookie (r : Request) (name : String) : Option Cookie :=
  r.cookies.find? (fun c => c.Name == name)

/-- The response, as far as the store writes it: the `Set-Cookie` lines, in order. -/
abbrev ResponseWriter := List Cookie

/-- The punctuation among the token characters of RFC 7230 (`httpguts.IsTokenRune`
accepts these, the ASCII letters and the ASCII digits). -/
def tokenPunctuation : List Char := "!#$%&'*+-.^_`|~".data

/-- Function `httpguts.IsTokenRune`. -/
def isTokenRune (c : Char) : Bool := c.isAlphanum || tokenPunctuation.contains c

/-- Function `isCookieNameValid`: a cookie name is a non-empty token. -/
def isCookieNameValid (raw : String) : Bool := raw != "" && raw.data.all isTokenRune

/-- Function `http.SetCookie(w, cookie)`: adds the `Set-Cookie` line of the cookie
when `cookie.String()` is not empty, that is when the cookie's name is valid; a
cookie with an invalid name is dropped. The line is recorded as the cookie it
renders. -/
def SetCookie (w : ResponseWriter) (c : Cookie) : ResponseWriter :=
  if isCookieNameValid c.Name then w ++ [c] else w

end http

namespace sessions

/-- Function `sessions.NewCookie(name, value, options)`. -/
def NewCookie (name value : String) (options : Options) : http.Cookie :=
  { Name := name, Value := value, Path := options.Path, Domain := options.Domain,
    MaxAge := options.MaxAge, Secure := options.Secure, HttpOnly := options.HttpOnly }

end sessions

namespace securecookie

/-- Type `*securecookie.SecureCookie`: one key pair with its own max-age. -/
structure SecureCookie where
  hashKey : String
  blockKey : String
  maxAge : Int
  deriving DecidableEq, Repr

/-- Method `(*SecureCookie).MaxAge(value)`. -/
def SecureCookie.MaxAge (sc : SecureCookie) (value : Int) : SecureCookie :=
  { sc with maxAge := value }

/-- Interface `securecookie.Codec`: either a `*SecureCookie` or some other
implementation of the interface (which has no max-age to set). -/
inductive Codec where
  | secureCookie (sc : SecureCookie)
  | custom (tag : Nat)
  deriving DecidableEq, Repr

/-- The max-age a codec carries, when it is a `*SecureCookie`. -/
def Codec.maxAge : Codec → Option Int
  | .secureCookie sc => some sc.maxAge
  | .custom _ => none

/-- The two library functions the store calls on its codec set. `DecodeMulti name
value codecs` answers the decoded id or the error (the destination `&session.ID`
is written on success only); `EncodeMulti name id codecs` answers the cookie value
or the error. -/
structure Lib where
  DecodeMulti : String → String → List Codec → Except GoError String
  EncodeMulti : String → String → List Codec → Except GoError String

end securecookie

namespace base32

/-- The alphabet of `base32.StdEncoding` (RFC 4648). -/
def encodeStd : List Char :=
  ['A', 'B', 'C', 'D', 'E', 'F', 'G', 'H', 'I', 'J', 'K', 'L', 'M', 'N', 'O', 'P',
   'Q', 'R', 'S', 'T', 'U', 'V', 'W', 'X', 'Y', 'Z', '2', '3', '4', '5', '6', '7']

/-- Constant `base32.StdPadding`. -/
def StdPadding : Char := '='

/-- The table lookup `enc.encode[b&31]`. -/
def encodeChar (b : Nat) : Char := encodeStd.getD (b &&& 31) 'A'

/-- The switch of `Encode` that unpacks up to five source bytes into eight 5-bit
blocks `b[0..7]`; the cases fall through, so a case runs when the source has at
least that many bytes. Shifts of a `byte` are taken modulo 256. -/
def unpack (src : List Byte) : List Nat :=
  let n := src.length
  let s (i : Nat) : Nat := (src.getD i 0).val
  -- default: (five or more bytes)
  let b7 := if 5 ≤ n then s 4 &&& 0x1F else 0
  let b6 := if 5 ≤ n then s 4 >>> 5 else 0
  -- case 4:
  let b6 := if 4 ≤ n then b6 ||| (((s 3 <<< 3) % 256) &&& 0x1F) else b6
  let b5 := if 4 ≤ n then (s 3 >>> 2) &&& 0x1F else 0
  let b4 := if 4 ≤ n then s 3 >>> 7 else 0
  -- case 3:
  let b4 := if 3 ≤ n then b4 ||| (((s 2 <<< 1) % 256) &&& 0x1F) else b4
  let b3 := if 3 ≤ n then (s 2 >>> 4) &&& 0x1F else 0
  -- case 2:
  let b3 := if 2 ≤ n then b3 ||| (((s 1 <<< 4) % 256) &&& 0x1F) else b3
  let b2 := if 2 ≤ n then (s 1 >>> 1) &&& 0x1F else 0
  let b1 := if 2 ≤ n then (s 1 >>> 6) &&& 0x1F else 0
  -- case 1:
  let b1 := if 1 ≤ n then b1 ||| (((s 0 <<< 2) % 256) &&& 0x1F) else b1
  let b0 := if 1 ≤ n then s 0 >>> 3 else 0
  [b0, b1, b2, b3, b4, b5, b6, b7]

/-- The padding of the final quantum: `dst[size-1]`, ... are overwritten with the
pad character according to the number `n` of source bytes left (`size` is 8). -/
def pad (dst : List Char) (n : Nat) : List Char :=
  if n < 5 then
    let dst := dst.set 7 StdPadding
    if n < 4 then
      let dst := (dst.set 6 StdPadding).set 5 StdPadding
      if n < 3 then
        let dst := dst.set 4 StdPadding
        if n < 2 then
          (dst.set 3 StdPadding).set 2 StdPadding
        else dst
      else dst
    else dst
  else dst

/-- One turn of the loop of `Encode`: unpack, look up the eight characters, pad. -/
def encodeQuantum (src : List Byte) : List Char :=
  pad ((unpack src).map encodeChar) src.length

/-- Method `(*Encoding).Encode` of `base32.StdEncoding`: five source bytes give
eight characters; the final, shorter quantum is padded and ends the loop. -/
def Encode : List Byte → List Char
  | s0 :: s1 :: s2 :: s3 :: s4 :: rest => encodeQuantum [s0, s1, s2, s3, s4] ++ Encode rest
  | [] => []
  | src => encodeQuantum src

/-- Method `StdEncoding.EncodeToString`. -/
def EncodeToString (src : List Byte) : String := String.mk (Encode src)

end base32

namespace strings

/-- Function `strings.TrimRight(s, cutset)`: `s` without its trailing characters
that are in `cutset`. -/
def TrimRight (s cutset : String) : String :=
  String.mk ((s.data.reverse.dropWhile (fun c => decide (c ∈ cutset.data))).reverse)

end strings

namespace storage

/-- Interface `Conn`: the underlying persistent database, over a backend state
`σ`. `Load` answers `(found, err)` and the values it read into the session;
`Save`, `Delete` and `Close` answer their error. Each also gives the next
backend state. A connector gets the session by pointer; the embedding lets `Load`
replace the session's `Values` and lets no method change its id, name, options or
`IsNew`. -/
structure Conn (σ : Type) where
  Load : σ → sessions.Session → (Bool × Option GoError) × List (String × String) × σ
  Save : σ → sessions.Session → Option GoError × σ
  Delete : σ → sessions.Session → Option GoError × σ
  Close : σ → Option GoError × σ

/-- Type `SessionConfig`, with the fields `New` reads. -/
structure SessionConfig where
  MaxAge : Int
  KeyPairs : List String
  secureCookie : Bool
  deriving DecidableEq, Repr

/-- Type `Storage`: connector, codec set and default options. -/
structure Storage (σ : Type) where
  conn : Conn σ
  codecs : List securecookie.Codec
  options : sessions.Options

/-- A call that leaves the store, with what it was given and what it answered. -/
inductive Event where
  | connLoad (session : sessions.Session) (found : Bool) (err : Option GoError)
  | connSave (session : sessions.Session) (err : Option GoError)
  | connDelete (session : sessions.Session) (err : Option GoError)
  | decodeMulti (name value : String) (err : Option GoError)
  | encodeMulti (name id : String) (err : Option GoError)
  | generateRandomKey (key : List Byte)
  | setCookie (c : http.Cookie)
  deriving DecidableEq, Repr

/-- Variable `defaultSessionMaxAge`. -/
def defaultSessionMaxAge : Int := 1800

/-- Modelled from the spec: `internal.CodecsFromPairs` is not among the source
files. The spec describes the codec set as an ordered list of codecs, each
wrapping a signing/encryption key pair and enforcing its own max-age; as in
gorilla/securecookie, a trailing single key is a pair without block key and a
fresh codec has a max-age of 30 days. -/
def CodecsFromPairs : List String → List securecookie.Codec
  | hashKey :: blockKey :: rest =>
      .secureCookie ⟨hashKey, blockKey, 86400 * 30⟩ :: CodecsFromPairs rest
  | [hashKey] => [.secureCookie ⟨hashKey, "", 86400 * 30⟩]
  | [] => []

/-- Method `(*Storage).MaxAge(age)`: sets the default options max-age and the
max-age of each codec that is a `*securecookie.SecureCookie`. -/
def Storage.MaxAge {σ : Type} (s : Storage σ) (age : Int) : Storage σ :=
  { s with
    options := { s.options with MaxAge := age }
    codecs := s.codecs.map (fun codec =>
      match codec with
      | .secureCookie sc => .secureCookie (sc.MaxAge age)
      | other => other) }

/-- Function `storage.New(conn, config)`. -/
def New {σ : Type} (conn : Conn σ) (config : SessionConfig) : Storage σ :=
  let maxAge := if config.MaxAge ≤ 0 then defaultSessionMaxAge else config.MaxAge
  let s : Storage σ :=
    { codecs := CodecsFromPairs config.KeyPairs
      options := { Path := "/", Domain := "", MaxAge := maxAge,
                   Secure := config.secureCookie, HttpOnly := true }
      conn := conn }
  s.MaxAge s.options.MaxAge

/-- What `(*Storage).New` gives back and leaves behind: the session, the error,
the backend state and the calls it made. -/
structure NewResult (σ : Type) where
  session : sessions.Session
  err : Option GoError
  db : σ
  trace : List Event

/-- Method `(*Storage).New(r, name)`. The `err` assigned by `ok, err :=
s.conn.Load(session)` is a variable of the inner block: the returned `err` is the
one `DecodeMulti` assigned. -/
def Storage.New {σ : Type} (lib : securecookie.Lib) (s : Storage σ) (db : σ)
    (r : http.Request) (name : String) : NewResult σ :=
  let session := sessions.NewSession name
  let session := { session with IsNew := true }
  let opts := s.options
  let session := { session with Options := opts }
  match r.Cookie name with
  | some c =>
    match lib.DecodeMulti name c.Value s.codecs with
    | .ok id =>
      let err : Option GoError := none
      let session := { session with ID := id }
      match s.conn.Load db session with
      | ((ok, errLoad), values, db1) =>
        let loaded := { session with Values := values }
        let loaded := { loaded with IsNew := !(errLoad == none && ok) }
        ⟨loaded, err, db1, [.decodeMulti name c.Value none, .connLoad session ok errLoad]⟩
    | .error err =>
      match err with
      | .secureCookie isInternal _ =>
        if !isInternal then
          ⟨session, none, db, [.decodeMulti name c.Value (some err)]⟩
        else
          ⟨session, some err, db, [.decodeMulti name c.Value (some err)]⟩
      | .other msg =>
        ⟨session, some (.other ("unknown securecookie error: " ++ msg)), db,
          [.decodeMulti name c.Value (some err)]⟩
  | none => ⟨session, none, db, []⟩

/-- What `(*Storage).Save` gives back and leaves behind: the error, the session
(its id may have been set), the response, the backend state and the calls made. -/
structure SaveResult (σ : Type) where
  err : Option GoError
  session : sessions.Session
  w : http.ResponseWriter
  db : σ
  trace : List Event

/-- The id minted from a random key: `strings.TrimRight(base32.StdEncoding.
EncodeToString(key), "=")`. -/
def mintID (key : List Byte) : String :=
  strings.TrimRight (base32.EncodeToString key) "="

/-- Lines 138-142 of `(*Storage).Save`: a session without id gets the id minted
from the random key; a session with an id is left as it is. -/
def toPersist (session : sessions.Session) (key : List Byte) : sessions.Session :=
  if session.ID = "" then { session with ID := mintID key } else session

/-- The call of `securecookie.GenerateRandomKey` in lines 138-142: made only for a
session without id. -/
def keyCalls (session : sessions.Session) (key : List Byte) : List Event :=
  if session.ID = "" then [.generateRandomKey key] else []

/-- Method `(*Storage).Save(r, w, session)`. `key` is what
`securecookie.GenerateRandomKey(32)` answers in this call: 32 random bytes, or nil
(the empty list) when the random source fails; it is read only when the session
has no id. -/
def Storage.Save {σ : Type} (lib : securecookie.Lib) (s : Storage σ) (db : σ)
    (key : List Byte) (_r : http.Request) (w : http.ResponseWriter)
    (session : sessions.Session) : SaveResult σ :=
  if session.Options.MaxAge ≤ 0 then
    match s.conn.Delete db session with
    | (some err, db1) => ⟨some err, session, w, db1, [.connDelete session (some err)]⟩
    | (none, db1) =>
      let c := sessions.NewCookie session.name "" session.Options
      ⟨none, session, http.SetCookie w c, db1, [.connDelete session none, .setCookie c]⟩
  else
    let t0 := keyCalls session key
    let session := toPersist session key
    match s.conn.Save db session with
    | (some err, db1) => ⟨some err, session, w, db1, t0 ++ [.connSave session (some err)]⟩
    | (none, db1) =>
      match lib.EncodeMulti session.name session.ID s.codecs with
      | .error err =>
        ⟨some err, session, w, db1,
          t0 ++ [.connSave session none, .encodeMulti session.name session.ID (some err)]⟩
      | .ok encoded =>
        let c := sessions.NewCookie session.name encoded session.Options
        ⟨none, session, http.SetCookie w c, db1,
          t0 ++ [.connSave session none, .encodeMulti session.name session.ID none,
            .setCookie c]⟩

/-- Method `(*Storage).Close()`. -/
def Storage.Close {σ : Type} (s : Storage σ) (db : σ) : Option GoError × σ :=
  s.conn.Close db

end storage

namespace storage

/-- The session `(*Storage).New` builds before it looks at the request: a zero
session of that name, marked new, with a copy of the default options. -/
def Storage.fresh {σ : Type} (s : Storage σ) (name : String) : sessions.Session :=
  { sessions.NewSession name with IsNew := true, Options := s.options }

/-- The cookies a trace hands to `http.SetCookie`, in order. -/
def cookiesOf : List Event → List http.Cookie
  | [] => []
  | .setCookie c :: rest => c :: cookiesOf rest
  | _ :: rest => cookiesOf rest

/-- The default options' max-age is the max-age of every codec of the set. -/
def Storage.uniform {σ : Type} (s : Storage σ) : Prop :=
  ∀ c ∈ s.codecs, c.maxAge = some s.options.MaxAge

/-- The characters `A`-`Z` and `2`-`7`. -/
def isBase32Char (c : Char) : Prop :=
  ('A' ≤ c ∧ c ≤ 'Z') ∨ ('2' ≤ c ∧ c ≤ '7')

instance : DecidablePred isBase32Char := fun c => by
  unfold isBase32Char
  infer_instance

instance {σ : Type} (s : Storage σ) : Decidable s.uniform := by
  unfold Storage.uniform
  infer_instance

end storage

/-! ## Example backends and codec libraries, used to run the store on concrete inputs -/

namespace demo

/-- An in-memory backend: one row `(id, values)` per session. -/
def memConn : storage.Conn (List (String × List (String × String))) where
  Load db session :=
    match db.lookup session.ID with
    | some values => ((true, none), values, db)
    | none => ((false, none), session.Values, db)
  Save db session := (none, (session.ID, session.Values) :: db.filter (fun row => row.1 != session.ID))
  Delete db session := (none, db.filter (fun row => row.1 != session.ID))
  Close db := (none, db)

/-- The error of a backend that cannot be reached. -/
def backendDown : GoError := .other "dial tcp: connection refused"

/-- A backend every call of which fails. -/
def downConn : storage.Conn Unit where
  Load _ session := ((false, some backendDown), session.Values, ())
  Save _ _ := (some backendDown, ())
  Delete _ _ := (some backendDown, ())
  Close _ := (some backendDown, ())

/-- A codec library that encodes an id as itself. -/
def plainLib : securecookie.Lib where
  DecodeMulti _ value _ := .ok value
  EncodeMulti _ id _ := .ok id

/-- The error of an encoder whose output exceeds the length limit. -/
def tooLong : GoError := .secureCookie false "securecookie: the value is too long"

/-- A codec library whose encoder fails. -/
def noEncodeLib : securecookie.Lib where
  DecodeMulti _ value _ := .ok value
  EncodeMulti _ _ _ := .error tooLong

/-- A codec library whose decoder rejects every cookie with the given error. -/
def rejectLib (err : GoError) : securecookie.Lib where
  DecodeMulti _ _ _ := .error err
  EncodeMulti _ id _ := .ok id

/-- The configuration of the examples. -/
def config : storage.SessionConfig := { MaxAge := 600, KeyPairs := ["hash-key", "block-key"], secureCookie := true }

/-- A store over the in-memory backend. -/
def memStore : storage.Storage (List (String × List (String × String))) := storage.New memConn config

/-- A store over the failing backend. -/
def downStore : storage.Storage Unit := storage.New downConn config

/-- The cookie `session=abc`, as a request carries it. -/
def cookie : http.Cookie :=
  { Name := "session", Value := "abc", Path := "", Domain := "", MaxAge := 0, Secure := false,
    HttpOnly := false }

/-- A request carrying the cookie `session=abc`. -/
def request : http.Request := ⟨[cookie]⟩

/-- A request without cookies. -/
def bare : http.Request := ⟨[]⟩

/-- A session with an id, to be kept for ten minutes. -/
def live : sessions.Session :=
  { ID := "abc", Values := [("sub", "alice")], Options := memStore.options, IsNew := false, name := "session" }

/-- A session to be deleted. -/
def expired : sessions.Session :=
  { live with Options := { live.Options with MaxAge := -1 } }

/-- A session to be deleted whose name is not a valid cookie name. -/
def spaced : sessions.Session := { expired with name := "my session" }

/-- A session without an id yet. -/
def unsaved : sessions.Session := { live with ID := "", IsNew := true }

/-- A 32-byte key. -/
def key : List Byte := List.replicate 32 255

/-- Another 32-byte key. -/
def key2 : List Byte := List.replicate 32 0

end demo

namespace storage

/-! ## The branches of `(*Storage).Save` and `(*Storage).New` -/

theorem Save_delete_err {σ : Type} (lib : securecookie.Lib) (s : Storage σ) (db db1 : σ)
    (key : List Byte) (r : http.Request) (w : http.ResponseWriter) (session : sessions.Session)
    (e : GoError) (hAge : session.Options.MaxAge ≤ 0)
    (hD : s.conn.Delete db session = (some e, db1)) :
    Storage.Save lib s db key r w session =
      ⟨some e, session, w, db1, [Event.connDelete session (some e)]⟩ := by
  simp [Storage.Save, hAge, hD]

theorem Save_delete_ok {σ : Type} (lib : securecookie.Lib) (s : Storage σ) (db db1 : σ)
    (key : List Byte) (r : http.Request) (w : http.ResponseWriter) (session : sessions.Session)
    (hAge : session.Options.MaxAge ≤ 0) (hD : s.conn.Delete db session = (none, db1)) :
    Storage.Save lib s db key r w session =
      ⟨none, session, http.SetCookie w (sessions.NewCookie session.name "" session.Options),
        db1,
        [Event.connDelete session none,
         Event.setCookie (sessions.NewCookie session.name "" session.Options)]⟩ := by
  simp [Storage.Save, hAge, hD]

theorem Save_persist_err {σ : Type} (lib : securecookie.Lib) (s : Storage σ) (db db1 : σ)
    (key : List Byte) (r : http.Request) (w : http.ResponseWriter) (session : sessions.Session)
    (e : GoError) (hAge : 0 < session.Options.MaxAge)
    (hS : s.conn.Save db (toPersist session key) = (some e, db1)) :
    Storage.Save lib s db key r w session =
      ⟨some e, toPersist session key, w, db1,
        keyCalls session key ++ [Event.connSave (toPersist session key) (some e)]⟩ := by
  have hAge2 : ¬ session.Options.MaxAge ≤ 0 := not_le.mpr hAge
  simp [Storage.Save, hAge2, hS]

theorem Save_encode_err {σ : Type} (lib : securecookie.Lib) (s : Storage σ) (db db1 : σ)
    (key : List Byte) (r : http.Request) (w : http.ResponseWriter) (session : sessions.Session)
    (e : GoError) (hAge : 0 < session.Options.MaxAge)
    (hS : s.conn.Save db (toPersist session key) = (none, db1))
    (hE : lib.EncodeMulti (toPersist session key).name (toPersist session key).ID s.codecs
      = .error e) :
    Storage.Save lib s db key r w session =
      ⟨some e, toPersist session key, w, db1,
        keyCalls session key ++ [Event.connSave (toPersist session key) none,
          Event.encodeMulti (toPersist session key).name (toPersist session key).ID (some e)]⟩ := by
  have hAge2 : ¬ session.Options.MaxAge ≤ 0 := not_le.mpr hAge
  simp [Storage.Save, hAge2, hS, hE]

theorem Save_ok {σ : Type} (lib : securecookie.Lib) (s : Storage σ) (db db1 : σ)
    (key : List Byte) (r : http.Request) (w : http.ResponseWriter) (session : sessions.Session)
    (encoded : String) (hAge : 0 < session.Options.MaxAge)
    (hS : s.conn.Save db (toPersist session key) = (none, db1))
    (hE : lib.EncodeMulti (toPersist session key).name (toPersist session key).ID s.codecs
      = .ok encoded) :
    Storage.Save lib s db key r w session =
      ⟨none, toPersist session key,
        http.SetCookie w (sessions.NewCookie (toPersist session key).name encoded
          (toPersist session key).Options), db1,
        keyCalls session key ++ [Event.connSave (toPersist session key) none,
          Event.encodeMulti (toPersist session key).name (toPersist session key).ID none,
          Event.setCookie (sessions.NewCookie (toPersist session key).name encoded
            (toPersist session key).Options)]⟩ := by
  have hAge2 : ¬ session.Options.MaxAge ≤ 0 := not_le.mpr hAge
  simp [Storage.Save, hAge2, hS, hE]

/-- What `http.SetCookie` leaves in the response: the cookie is added exactly when
its name is a valid cookie name. -/
theorem SetCookie_eq (w : http.ResponseWriter) (c : http.Cookie) :
    (http.isCookieNameValid c.Name = true → http.SetCookie w c = w ++ [c]) ∧
      (http.isCookieNameValid c.Name = false → http.SetCookie w c = w) := by
  unfold http.SetCookie
  constructor <;> intro h <;> simp [h]

/-- With a positive max-age `(*Storage).Save` calls the connector's `Save` once, on
`toPersist session key` and in the backend state it was given: that call decides
the backend state afterwards and, when it fails, the error returned. -/
theorem Save_positive {σ : Type} (lib : securecookie.Lib) (s : Storage σ) (db : σ)
    (key : List Byte) (r : http.Request) (w : http.ResponseWriter) (session : sessions.Session)
    (hAge : 0 < session.Options.MaxAge) :
    (Storage.Save lib s db key r w session).db = (s.conn.Save db (toPersist session key)).2 ∧
      (Storage.Save lib s db key r w session).session = toPersist session key ∧
      (∀ e, (s.conn.Save db (toPersist session key)).1 = some e →
        (Storage.Save lib s db key r w session).err = some e) ∧
      ∃ post, (Storage.Save lib s db key r w session).trace =
          keyCalls session key ++
            Event.connSave (toPersist session key) (s.conn.Save db (toPersist session key)).1
              :: post ∧
        ∀ x e, Event.connSave x e ∉ post := by
  rcases hS : s.conn.Save db (toPersist session key) with ⟨_ | e, db1⟩
  · rcases hE : lib.EncodeMulti (toPersist session key).name (toPersist session key).ID s.codecs
      with e | enc
    · rw [Save_encode_err lib s db db1 key r w session e hAge hS hE]
      exact ⟨rfl, rfl, by simp, _, rfl, by simp⟩
    · rw [Save_ok lib s db db1 key r w session enc hAge hS hE]
      exact ⟨rfl, rfl, by simp, _, rfl, by simp⟩
  · rw [Save_persist_err lib s db db1 key r w session e hAge hS]
    exact ⟨rfl, rfl, by simp, _, rfl, by simp⟩

theorem toPersist_name (session : sessions.Session) (key : List Byte) :
    (toPersist session key).name = session.name := by
  unfold toPersist; split <;> rfl

theorem toPersist_Options (session : sessions.Session) (key : List Byte) :
    (toPersist session key).Options = session.Options := by
  unfold toPersist; split <;> rfl

theorem toPersist_Values (session : sessions.Session) (key : List Byte) :
    (toPersist session key).Values = session.Values := by
  unfold toPersist; split <;> rfl

theorem toPersist_ID (session : sessions.Session) (key : List Byte) :
    (toPersist session key).ID = if session.ID = "" then mintID key else session.ID := by
  unfold toPersist; split <;> rfl

theorem New_no_cookie {σ : Type} (lib : securecookie.Lib) (s : Storage σ) (db : σ)
    (r : http.Request) (name : String) (hC : r.Cookie name = none) :
    Storage.New lib s db r name = ⟨s.fresh name, none, db, []⟩ := by
  simp [Storage.New, hC, Storage.fresh]

theorem New_decoded {σ : Type} (lib : securecookie.Lib) (s : Storage σ) (db : σ)
    (r : http.Request) (name : String) (c : http.Cookie) (id : String)
    (hC : r.Cookie name = some c) (hD : lib.DecodeMulti name c.Value s.codecs = .ok id) :
    Storage.New lib s db r name =
      ⟨{ s.fresh name with
          ID := id
          Values := (s.conn.Load db { s.fresh name with ID := id }).2.1
          IsNew := !((s.conn.Load db { s.fresh name with ID := id }).1.2 == none
            && (s.conn.Load db { s.fresh name with ID := id }).1.1) },
        none, (s.conn.Load db { s.fresh name with ID := id }).2.2,
        [Event.decodeMulti name c.Value none,
         Event.connLoad { s.fresh name with ID := id }
           (s.conn.Load db { s.fresh name with ID := id }).1.1
           (s.conn.Load db { s.fresh name with ID := id }).1.2]⟩ := by
  simp [Storage.New, hC, hD, Storage.fresh]

theorem New_rejected {σ : Type} (lib : securecookie.Lib) (s : Storage σ) (db : σ)
    (r : http.Request) (name : String) (c : http.Cookie) (msg : String)
    (hC : r.Cookie name = some c)
    (hD : lib.DecodeMulti name c.Value s.codecs = .error (.secureCookie false msg)) :
    Storage.New lib s db r name =
      ⟨s.fresh name, none, db,
        [Event.decodeMulti name c.Value (some (.secureCookie false msg))]⟩ := by
  simp [Storage.New, hC, hD, Storage.fresh]

theorem New_internal {σ : Type} (lib : securecookie.Lib) (s : Storage σ) (db : σ)
    (r : http.Request) (name : String) (c : http.Cookie) (msg : String)
    (hC : r.Cookie name = some c)
    (hD : lib.DecodeMulti name c.Value s.codecs = .error (.secureCookie true msg)) :
    Storage.New lib s db r name =
      ⟨s.fresh name, some (.secureCookie true msg), db,
        [Event.decodeMulti name c.Value (some (.secureCookie true msg))]⟩ := by
  simp [Storage.New, hC, hD, Storage.fresh]

theorem New_unknown {σ : Type} (lib : securecookie.Lib) (s : Storage σ) (db : σ)
    (r : http.Request) (name : String) (c : http.Cookie) (msg : String)
    (hC : r.Cookie name = some c)
    (hD : lib.DecodeMulti name c.Value s.codecs = .error (.other msg)) :
    Storage.New lib s db r name =
      ⟨s.fresh name, some (.other ("unknown securecookie error: " ++ msg)), db,
        [Event.decodeMulti name c.Value (some (.other msg))]⟩ := by
  simp [Storage.New, hC, hD, Storage.fresh]

end storage

namespace base32

theorem and31 (x : Nat) : x &&& 31 = x % 32 := Nat.and_pow_two_sub_one_eq_mod x 5

theorem or_low (hi lo k : Nat) (h : lo < 2 ^ k) : lo ||| 2 ^ k * hi = 2 ^ k * hi + lo := by
  rw [Nat.or_comm]; exact (Nat.mul_add_lt_is_or h hi).symm

theorem unpack_five (a b c d e : Byte) :
    unpack [a, b, c, d, e] =
      [a.val / 8, a.val % 8 * 4 + b.val / 64, b.val / 2 % 32, b.val % 2 * 16 + c.val / 16,
       c.val % 16 * 2 + d.val / 128, d.val / 4 % 32, d.val % 4 * 8 + e.val / 32, e.val % 32] := by
  have ha := a.isLt
  have hb := b.isLt
  have hc := c.isLt
  have hd := d.isLt
  have he := e.isLt
  simp only [unpack, List.length_cons, List.length_nil, List.getD_cons_zero, List.getD_cons_succ,
    Nat.shiftRight_eq_div_pow, Nat.shiftLeft_eq, and31]
  simp only [Nat.reduceLeDiff, if_true, Nat.reducePow, Nat.reduceAdd]
  have h1 : b.val / 64 % 32 ||| a.val * 4 % 256 % 32 = a.val % 8 * 4 + b.val / 64 := by
    have : a.val * 4 % 256 % 32 = 2 ^ 2 * (a.val % 8) := by omega
    rw [this, or_low _ _ 2 (by omega)]; omega
  have h3 : c.val / 16 % 32 ||| b.val * 16 % 256 % 32 = b.val % 2 * 16 + c.val / 16 := by
    have : b.val * 16 % 256 % 32 = 2 ^ 4 * (b.val % 2) := by omega
    rw [this, or_low _ _ 4 (by omega)]; omega
  have h4 : d.val / 128 ||| c.val * 2 % 256 % 32 = c.val % 16 * 2 + d.val / 128 := by
    have : c.val * 2 % 256 % 32 = 2 ^ 1 * (c.val % 16) := by omega
    rw [this, or_low _ _ 1 (by omega)]; omega
  have h6 : e.val / 32 ||| d.val * 8 % 256 % 32 = d.val % 4 * 8 + e.val / 32 := by
    have : d.val * 8 % 256 % 32 = 2 ^ 3 * (d.val % 4) := by omega
    rw [this, or_low _ _ 3 (by omega)]; omega
  rw [h1, h3, h4, h6]

end base32

namespace base32

theorem unpack_two (a b : Byte) :
    unpack [a, b] =
      [a.val / 8, a.val % 8 * 4 + b.val / 64, b.val / 2 % 32, b.val % 2 * 16, 0, 0, 0, 0] := by
  have ha := a.isLt
  have hb := b.isLt
  simp only [unpack, List.length_cons, List.length_nil, List.getD_cons_zero, List.getD_cons_succ,
    Nat.shiftRight_eq_div_pow, Nat.shiftLeft_eq, and31]
  simp only [Nat.reduceLeDiff, if_true, if_false, Nat.reducePow, Nat.reduceAdd]
  have h1 : b.val / 64 % 32 ||| a.val * 4 % 256 % 32 = a.val % 8 * 4 + b.val / 64 := by
    have : a.val * 4 % 256 % 32 = 2 ^ 2 * (a.val % 8) := by omega
    rw [this, or_low _ _ 2 (by omega)]; omega
  have h3 : 0 ||| b.val * 16 % 256 % 32 = b.val % 2 * 16 := by
    rw [Nat.zero_or]; omega
  rw [h1, h3]

theorem encodeChar_mem (q : Nat) : encodeChar q ∈ encodeStd := by
  have h : ∀ i : Fin 32, encodeStd.getD i.val 'A' ∈ encodeStd := by decide
  have hq : q &&& 31 < 32 := by rw [and31]; omega
  exact h ⟨q &&& 31, hq⟩

theorem encodeStd_chars : ∀ ch ∈ encodeStd,
    (('A' ≤ ch ∧ ch ≤ 'Z') ∨ ('2' ≤ ch ∧ ch ≤ '7')) ∧ ch ≠ StdPadding := by
  decide

theorem encodeChar_inj (p q : Nat) (hp : p < 32) (hq : q < 32)
    (h : encodeChar p = encodeChar q) : p = q := by
  have key : ∀ i j : Fin 32, encodeStd.getD i.val 'A' = encodeStd.getD j.val 'A' → i = j := by
    decide
  have hp2 : p &&& 31 = p := by rw [and31]; omega
  have hq2 : q &&& 31 = q := by rw [and31]; omega
  unfold encodeChar at h
  rw [hp2, hq2] at h
  have := key ⟨p, hp⟩ ⟨q, hq⟩ h
  exact congrArg Fin.val this

theorem Encode_five (a b c d e : Byte) (rest : List Byte) :
    Encode (a :: b :: c :: d :: e :: rest) = (unpack [a, b, c, d, e]).map encodeChar ++ Encode rest := by
  rw [Encode]
  rfl

theorem Encode_two (a b : Byte) :
    Encode [a, b] = ((unpack [a, b]).map encodeChar).take 4 ++
      [StdPadding, StdPadding, StdPadding, StdPadding] := by
  rw [unpack_two]
  simp [Encode, encodeQuantum, pad, unpack_two]

end base32

namespace base32

theorem quantum_five_inj (a b c d e a2 b2 c2 d2 e2 : Byte)
    (h : (unpack [a, b, c, d, e]).map encodeChar = (unpack [a2, b2, c2, d2, e2]).map encodeChar) :
    a = a2 ∧ b = b2 ∧ c = c2 ∧ d = d2 ∧ e = e2 := by
  have ha := a.isLt
  have hb := b.isLt
  have hc := c.isLt
  have hd := d.isLt
  have he := e.isLt
  have ha2 := a2.isLt
  have hb2 := b2.isLt
  have hc2 := c2.isLt
  have hd2 := d2.isLt
  have he2 := e2.isLt
  rw [unpack_five, unpack_five] at h
  simp only [List.map_cons, List.map_nil, List.cons.injEq, and_true] at h
  obtain ⟨h0, h1, h2, h3, h4, h5, h6, h7⟩ := h
  have k0 := encodeChar_inj _ _ (by omega) (by omega) h0
  have k1 := encodeChar_inj _ _ (by omega) (by omega) h1
  have k2 := encodeChar_inj _ _ (by omega) (by omega) h2
  have k3 := encodeChar_inj _ _ (by omega) (by omega) h3
  have k4 := encodeChar_inj _ _ (by omega) (by omega) h4
  have k5 := encodeChar_inj _ _ (by omega) (by omega) h5
  have k6 := encodeChar_inj _ _ (by omega) (by omega) h6
  have k7 := encodeChar_inj _ _ (by omega) (by omega) h7
  refine ⟨Fin.ext ?_, Fin.ext ?_, Fin.ext ?_, Fin.ext ?_, Fin.ext ?_⟩ <;> omega

theorem quantum_two_inj (a b a2 b2 : Byte)
    (h : ((unpack [a, b]).map encodeChar).take 4 = ((unpack [a2, b2]).map encodeChar).take 4) :
    a = a2 ∧ b = b2 := by
  have ha := a.isLt
  have hb := b.isLt
  have ha2 := a2.isLt
  have hb2 := b2.isLt
  rw [unpack_two, unpack_two] at h
  simp only [List.map_cons, List.map_nil, List.take_succ_cons, List.take_zero, List.cons.injEq,
    and_true] at h
  obtain ⟨h0, h1, h2, h3⟩ := h
  have k0 := encodeChar_inj _ _ (by omega) (by omega) h0
  have k1 := encodeChar_inj _ _ (by omega) (by omega) h1
  have k2 := encodeChar_inj _ _ (by omega) (by omega) h2
  have k3 := encodeChar_inj _ _ (by omega) (by omega) h3
  refine ⟨Fin.ext ?_, Fin.ext ?_⟩ <;> omega

theorem unpack_length (src : List Byte) : (unpack src).length = 8 := by
  simp [unpack]

/-- The shape of the encoding of `5 * n + 2` bytes: `8 * n + 4` characters of the
alphabet, then four pad characters. -/
theorem Encode_shape (n : Nat) : ∀ key : List Byte, key.length = 5 * n + 2 →
    ∃ body, Encode key = body ++ [StdPadding, StdPadding, StdPadding, StdPadding] ∧
      body.length = 8 * n + 4 ∧ ∀ ch ∈ body, ch ∈ encodeStd := by
  induction n with
  | zero =>
    intro key h
    match key, h with
    | [a, b], _ =>
      refine ⟨((unpack [a, b]).map encodeChar).take 4, Encode_two a b, ?_, ?_⟩
      · simp [unpack_length]
      · intro ch hch
        have := List.mem_of_mem_take hch
        simp only [List.mem_map] at this
        obtain ⟨q, _, rfl⟩ := this
        exact encodeChar_mem q
  | succ n ih =>
    intro key h
    match key, h with
    | a :: b :: c :: d :: e :: rest, h =>
      have hr : rest.length = 5 * n + 2 := by simp at h; omega
      obtain ⟨body, hb, hl, hm⟩ := ih rest hr
      refine ⟨(unpack [a, b, c, d, e]).map encodeChar ++ body, ?_, ?_, ?_⟩
      · rw [Encode_five, hb, List.append_assoc]
      · simp [unpack_length, hl]; omega
      · intro ch hch
        rcases List.mem_append.mp hch with h1 | h1
        · simp only [List.mem_map] at h1
          obtain ⟨q, _, rfl⟩ := h1
          exact encodeChar_mem q
        · exact hm ch h1

/-- Two byte strings of the same length `5 * n + 2` with the same encoding are equal. -/
theorem Encode_inj (n : Nat) : ∀ key key2 : List Byte, key.length = 5 * n + 2 →
    key2.length = 5 * n + 2 → Encode key = Encode key2 → key = key2 := by
  induction n with
  | zero =>
    intro key key2 h h2 hE
    match key, h, key2, h2 with
    | [a, b], _, [a2, b2], _ =>
      rw [Encode_two, Encode_two] at hE
      have := List.append_cancel_right hE
      obtain ⟨h1, h2⟩ := quantum_two_inj a b a2 b2 this
      rw [h1, h2]
  | succ n ih =>
    intro key key2 h h2 hE
    match key, h, key2, h2 with
    | a :: b :: c :: d :: e :: rest, h, a2 :: b2 :: c2 :: d2 :: e2 :: rest2, h2 =>
      have hr : rest.length = 5 * n + 2 := by simp at h; omega
      have hr2 : rest2.length = 5 * n + 2 := by simp at h2; omega
      rw [Encode_five, Encode_five] at hE
      have hlen : ((unpack [a, b, c, d, e]).map encodeChar).length =
          ((unpack [a2, b2, c2, d2, e2]).map encodeChar).length := by
        simp [unpack_length]
      obtain ⟨hq, hrest⟩ := List.append_inj hE hlen
      obtain ⟨h1, h2, h3, h4, h5⟩ := quantum_five_inj _ _ _ _ _ _ _ _ _ _ hq
      rw [h1, h2, h3, h4, h5, ih rest rest2 hr hr2 hrest]

end base32

namespace strings

/-- Trailing pad characters after a body without pad characters are what
`TrimRight` cuts. -/
theorem TrimRight_pad (body : List Char) (n : Nat) (h : ∀ ch ∈ body, ch ≠ '=') :
    TrimRight (String.mk (body ++ List.replicate n '=')) "=" = String.mk body := by
  unfold TrimRight
  congr 1
  have hd : "=".data = ['='] := rfl
  simp only [hd, List.reverse_append, List.reverse_replicate, List.mem_singleton]
  have h1 : ∀ m : Nat, ∀ l : List Char,
      (List.replicate m '=' ++ l).dropWhile (fun c => decide (c = '=')) =
        l.dropWhile (fun c => decide (c = '=')) := by
    intro m
    induction m with
    | zero => intro l; rfl
    | succ m ih => intro l; simp [List.replicate_succ, ih]
  rw [h1]
  have h2 : body.reverse.dropWhile (fun c => decide (c = '=')) = body.reverse := by
    cases hb : body.reverse with
    | nil => rfl
    | cons x xs =>
      have hx : x ∈ body := by
        have : x ∈ body.reverse := by rw [hb]; simp
        simpa using this
      simp [List.dropWhile, h x hx]
  rw [h2, List.reverse_reverse]

end strings

namespace storage

/-- C1 (fails on the code): the request carries the cookie `session=abc`, the
cookie decodes, and the connector's `Load` fails; `Storage.New` calls `Load`, gets
its error, and returns a nil error with a new session. -/
theorem New_load_error_not_returned :
    (Storage.New demo.plainLib demo.downStore () demo.request "session").trace =
        [Event.decodeMulti "session" "abc" none,
         Event.connLoad { Storage.fresh demo.downStore "session" with ID := "abc" } false
           (some demo.backendDown)] ∧
      (Storage.New demo.plainLib demo.downStore () demo.request "session").err = none ∧
      (Storage.New demo.plainLib demo.downStore () demo.request "session").session.IsNew = true := by
  decide

end storage

namespace storage

/-- C2 (as stated, fails on the code): the session has max-age -1 and the
connector's `Delete` fails; `Storage.Save` returns that error and the response
carries no cookie. -/
theorem Save_delete_failure_writes_no_cookie :
    (Storage.Save demo.plainLib demo.downStore () demo.key demo.bare [] demo.expired).err =
        some demo.backendDown ∧
      (Storage.Save demo.plainLib demo.downStore () demo.key demo.bare [] demo.expired).w = [] := by
  decide

/-- A session named `my session`, a name that is no token, to be deleted: the
backend deletes the row, `Storage.Save` hands the cleared cookie to
`http.SetCookie` and returns nil, and the response carries no cookie. -/
theorem Save_invalid_name_writes_no_cookie :
    (Storage.Save demo.plainLib demo.memStore [("abc", [])] demo.key demo.bare []
        demo.spaced).err = none ∧
      (Storage.Save demo.plainLib demo.memStore [("abc", [])] demo.key demo.bare []
        demo.spaced).trace =
        [Event.connDelete demo.spaced none,
         Event.setCookie (sessions.NewCookie "my session" "" demo.spaced.Options)] ∧
      (Storage.Save demo.plainLib demo.memStore [("abc", [])] demo.key demo.bare []
        demo.spaced).w = [] := by
  decide

/-- C2 (amended): for every session whose max-age is at most 0, whatever its id
and values and whatever the connector does, `Storage.Save` first calls the
connector's `Delete` on that session and leaves the backend as that call left it,
never calls the connector's `Save`, never encodes an id and never draws a key;
when `Delete` returns no error the call returns nil and hands exactly the cleared
cookie (the session's name, empty value, the session's options) to
`http.SetCookie`, which adds it to the response when the session's name is a valid
cookie name and drops it otherwise; when `Delete` returns an error the call
returns that error and leaves the response as it was. -/
theorem Save_nonpositive_maxAge_deletes {σ : Type} (lib : securecookie.Lib) (s : Storage σ)
    (db : σ) (key : List Byte) (r : http.Request) (w : http.ResponseWriter)
    (session : sessions.Session) (hAge : session.Options.MaxAge ≤ 0) :
    (∃ rest, (Storage.Save lib s db key r w session).trace =
        Event.connDelete session (s.conn.Delete db session).1 :: rest) ∧
      (∀ ev ∈ (Storage.Save lib s db key r w session).trace,
        (∀ x err, ev ≠ Event.connSave x err) ∧ (∀ n i err, ev ≠ Event.encodeMulti n i err) ∧
          (∀ k, ev ≠ Event.generateRandomKey k)) ∧
      ((s.conn.Delete db session).1 = none →
        (Storage.Save lib s db key r w session).err = none ∧
          (Storage.Save lib s db key r w session).trace =
            [Event.connDelete session none,
             Event.setCookie (sessions.NewCookie session.name "" session.Options)] ∧
          (http.isCookieNameValid session.name = true →
            (Storage.Save lib s db key r w session).w =
              w ++ [sessions.NewCookie session.name "" session.Options]) ∧
          (http.isCookieNameValid session.name = false →
            (Storage.Save lib s db key r w session).w = w)) ∧
      (∀ e, (s.conn.Delete db session).1 = some e →
        (Storage.Save lib s db key r w session).err = some e ∧
          (Storage.Save lib s db key r w session).w = w ∧
          (Storage.Save lib s db key r w session).trace =
            [Event.connDelete session (some e)]) ∧
      (Storage.Save lib s db key r w session).db = (s.conn.Delete db session).2 ∧
      (Storage.Save lib s db key r w session).session = session := by
  rcases hD : s.conn.Delete db session with ⟨_ | e, db1⟩
  · rw [Save_delete_ok lib s db db1 key r w session hAge hD]
    have hc := SetCookie_eq w (sessions.NewCookie session.name "" session.Options)
    have hn : (sessions.NewCookie session.name "" session.Options).Name = session.name := rfl
    rw [hn] at hc
    refine ⟨⟨_, rfl⟩, by simp, fun _ => ⟨rfl, rfl, hc.1, hc.2⟩, by simp, rfl, rfl⟩
  · rw [Save_delete_err lib s db db1 key r w session e hAge hD]
    simp

/-- C2, at a concrete input: deleting the stored session `abc` through the
in-memory backend removes the row and clears the cookie `session`. -/
theorem Save_nonpositive_maxAge_deletes_witness :
    (Storage.Save demo.plainLib demo.memStore [("abc", [])] demo.key demo.bare [] demo.expired).w =
        [] ++ [sessions.NewCookie "session" "" demo.expired.Options] ∧
      (Storage.Save demo.plainLib demo.memStore [("abc", [])] demo.key demo.bare []
        demo.expired).db = [] ∧
      (Storage.Save demo.plainLib demo.memStore [("abc", [])] demo.key demo.bare []
        demo.expired).trace =
        [Event.connDelete demo.expired none,
         Event.setCookie (sessions.NewCookie "session" "" demo.expired.Options)] :=
  ⟨((Save_nonpositive_maxAge_deletes demo.plainLib demo.memStore [("abc", [])] demo.key
      demo.bare [] demo.expired (by decide)).2.2.1 (by decide)).2.2.1 (by decide),
   by decide,
   by decide⟩

/-- C3: for every session with positive max-age, if the connector's `Save`
returns an error then `Storage.Save` returns that error, leaves the response as it
was and hands no cookie to `http.SetCookie`; and whenever a cookie is handed to
`http.SetCookie`, the trace of the call shows, before it, the connector's `Save`
on the session returning no error. -/
theorem Save_cookie_only_after_persist {σ : Type} (lib : securecookie.Lib) (s : Storage σ)
    (db : σ) (key : List Byte) (r : http.Request) (w : http.ResponseWriter)
    (session : sessions.Session) (hAge : 0 < session.Options.MaxAge) :
    (∀ e, (s.conn.Save db (toPersist session key)).1 = some e →
        (Storage.Save lib s db key r w session).err = some e ∧
          (Storage.Save lib s db key r w session).w = w ∧
          ∀ c, Event.setCookie c ∉ (Storage.Save lib s db key r w session).trace) ∧
      (∀ c, Event.setCookie c ∈ (Storage.Save lib s db key r w session).trace →
        (s.conn.Save db (toPersist session key)).1 = none ∧
          ∃ pre post, (Storage.Save lib s db key r w session).trace =
              pre ++ Event.connSave (toPersist session key) none :: post ∧
            Event.setCookie c ∈ post ∧ Event.setCookie c ∉ pre) ∧
      ((Storage.Save lib s db key r w session).w ≠ w →
        ∃ c, Event.setCookie c ∈ (Storage.Save lib s db key r w session).trace) := by
  have hk : ∀ c, Event.setCookie c ∉ keyCalls session key := by
    intro c; unfold keyCalls; split <;> simp
  rcases hS : s.conn.Save db (toPersist session key) with ⟨_ | e, db1⟩
  · rcases hE : lib.EncodeMulti (toPersist session key).name (toPersist session key).ID s.codecs
      with e | enc
    · rw [Save_encode_err lib s db db1 key r w session e hAge hS hE]
      simp [hk]
    · rw [Save_ok lib s db db1 key r w session enc hAge hS hE]
      refine ⟨by simp, ?_, by simp⟩
      intro c hc
      refine ⟨rfl, keyCalls session key, _, rfl, ?_, hk c⟩
      simpa [hk] using hc
  · rw [Save_persist_err lib s db db1 key r w session e hAge hS]
    simp [hk]

/-- C3, at a concrete input: the backend is down, the session has max-age 600. -/
theorem Save_cookie_only_after_persist_witness :
    (Storage.Save demo.plainLib demo.downStore () demo.key demo.bare [] demo.live).err =
        some demo.backendDown ∧
      (Storage.Save demo.plainLib demo.downStore () demo.key demo.bare [] demo.live).w = [] ∧
      ∀ c, Event.setCookie c ∉
        (Storage.Save demo.plainLib demo.downStore () demo.key demo.bare [] demo.live).trace :=
  (Save_cookie_only_after_persist demo.plainLib demo.downStore () demo.key demo.bare []
    demo.live (by decide)).1 demo.backendDown (by decide)

end storage

namespace storage

/-- C4 (as stated, fails on the code): the in-memory backend stores the row, then
the codec set fails to encode; `Storage.Save` returns the codec error, the
response carries no cookie, and the row is in the backend. -/
theorem Save_encode_failure_leaves_row :
    (Storage.Save demo.noEncodeLib demo.memStore [] demo.key demo.bare [] demo.live).err =
        some demo.tooLong ∧
      (Storage.Save demo.noEncodeLib demo.memStore [] demo.key demo.bare [] demo.live).w = [] ∧
      (Storage.Save demo.noEncodeLib demo.memStore [] demo.key demo.bare [] demo.live).db =
        [("abc", [("sub", "alice")])] ∧
      (demo.memConn.Load
        (Storage.Save demo.noEncodeLib demo.memStore [] demo.key demo.bare [] demo.live).db
        demo.live).1 = (true, none) := by
  decide

/-- C4 (amended): for every session with positive max-age, if `Storage.Save`
returns an error then no cookie has been written to the response, and the backend
is as the connector's `Save` left it; the error is either the error of the
connector's `Save`, after which nothing else is called, or the error of the codec
set, raised after the connector's `Save` returned no error; in neither case does
`Storage.Save` call the connector's `Delete`. -/
theorem Save_error_writes_no_cookie {σ : Type} (lib : securecookie.Lib) (s : Storage σ)
    (db : σ) (key : List Byte) (r : http.Request) (w : http.ResponseWriter)
    (session : sessions.Session) (hAge : 0 < session.Options.MaxAge)
    (hErr : (Storage.Save lib s db key r w session).err ≠ none) :
    (Storage.Save lib s db key r w session).w = w ∧
      (∀ c, Event.setCookie c ∉ (Storage.Save lib s db key r w session).trace) ∧
      (Storage.Save lib s db key r w session).db = (s.conn.Save db (toPersist session key)).2 ∧
      (∀ x err, Event.connDelete x err ∉ (Storage.Save lib s db key r w session).trace) ∧
      ((∃ e, (s.conn.Save db (toPersist session key)).1 = some e ∧
          (Storage.Save lib s db key r w session).err = some e ∧
          (Storage.Save lib s db key r w session).trace =
            keyCalls session key ++ [Event.connSave (toPersist session key) (some e)]) ∨
       (∃ e, (s.conn.Save db (toPersist session key)).1 = none ∧
          lib.EncodeMulti (toPersist session key).name (toPersist session key).ID s.codecs =
            .error e ∧
          (Storage.Save lib s db key r w session).err = some e ∧
          (Storage.Save lib s db key r w session).trace =
            keyCalls session key ++ [Event.connSave (toPersist session key) none,
              Event.encodeMulti (toPersist session key).name (toPersist session key).ID
                (some e)])) := by
  have hk : ∀ ev ∈ keyCalls session key, ∃ k, ev = Event.generateRandomKey k := by
    intro ev hev
    unfold keyCalls at hev
    split at hev <;> simp at hev
    exact ⟨_, hev⟩
  have hk1 : ∀ c, Event.setCookie c ∉ keyCalls session key := by
    intro c hc; obtain ⟨k, h⟩ := hk _ hc; cases h
  have hk2 : ∀ x err, Event.connDelete x err ∉ keyCalls session key := by
    intro x err hc; obtain ⟨k, h⟩ := hk _ hc; cases h
  rcases hS : s.conn.Save db (toPersist session key) with ⟨_ | e, db1⟩
  · rcases hE : lib.EncodeMulti (toPersist session key).name (toPersist session key).ID s.codecs
      with e | enc
    · rw [Save_encode_err lib s db db1 key r w session e hAge hS hE]
      simp [hk1, hk2]
    · rw [Save_ok lib s db db1 key r w session enc hAge hS hE] at hErr
      simp at hErr
  · rw [Save_persist_err lib s db db1 key r w session e hAge hS]
    simp [hk1, hk2]

/-- C4, at a concrete input: the codec set fails after the in-memory backend
stored the row. -/
theorem Save_error_writes_no_cookie_witness :
    (Storage.Save demo.noEncodeLib demo.memStore [] demo.key demo.bare [] demo.live).w = [] :=
  (Save_error_writes_no_cookie demo.noEncodeLib demo.memStore [] demo.key demo.bare []
    demo.live (by decide) (by decide)).1

/-- C5: for a request with a cookie of that name whose decoding fails with a
securecookie error that is not internal, `Storage.New` returns a nil error and a
session with `IsNew` true, and never calls the connector's `Load`; when the error
is an internal securecookie error, `Storage.New` returns that error; and without a
cookie of that name `Storage.New` returns a nil error. -/
theorem New_decode_failure_classes {σ : Type} (lib : securecookie.Lib) (s : Storage σ)
    (db : σ) (r : http.Request) (name : String) :
    (∀ c msg, r.Cookie name = some c →
        lib.DecodeMulti name c.Value s.codecs = .error (.secureCookie false msg) →
        (Storage.New lib s db r name).err = none ∧
          (Storage.New lib s db r name).session.IsNew = true ∧
          (∀ x found err, Event.connLoad x found err ∉ (Storage.New lib s db r name).trace) ∧
          (Storage.New lib s db r name).db = db) ∧
      (∀ c msg, r.Cookie name = some c →
        lib.DecodeMulti name c.Value s.codecs = .error (.secureCookie true msg) →
        (Storage.New lib s db r name).err = some (.secureCookie true msg)) ∧
      (r.Cookie name = none → (Storage.New lib s db r name).err = none) := by
  refine ⟨?_, ?_, ?_⟩
  · intro c msg hC hD
    rw [New_rejected lib s db r name c msg hC hD]
    simp [Storage.fresh]
  · intro c msg hC hD
    rw [New_internal lib s db r name c msg hC hD]
  · intro hC
    rw [New_no_cookie lib s db r name hC]

/-- C5, at a concrete input: an expired cookie against a backend that is down. -/
theorem New_decode_failure_classes_witness :
    (Storage.New (demo.rejectLib (.secureCookie false "securecookie: expired timestamp"))
        demo.downStore () demo.request "session").err = none ∧
      (Storage.New (demo.rejectLib (.secureCookie false "securecookie: expired timestamp"))
        demo.downStore () demo.request "session").session.IsNew = true :=
  ⟨((New_decode_failure_classes
      (demo.rejectLib (.secureCookie false "securecookie: expired timestamp"))
      demo.downStore () demo.request "session").1 demo.cookie _ (by decide) rfl).1,
   ((New_decode_failure_classes
      (demo.rejectLib (.secureCookie false "securecookie: expired timestamp"))
      demo.downStore () demo.request "session").1 demo.cookie _ (by decide) rfl).2.1⟩

/-- C6: for every request and name, `Storage.New` returns a session of that name,
whose `IsNew` is false if and only if a cookie of that name is present, it decodes,
and the connector's `Load` on the session carrying the decoded id answers found
with no error; in every other case `IsNew` is true. -/
theorem New_isNew_iff {σ : Type} (lib : securecookie.Lib) (s : Storage σ) (db : σ)
    (r : http.Request) (name : String) :
    (Storage.New lib s db r name).session.name = name ∧
      ((Storage.New lib s db r name).session.IsNew = false ↔
        ∃ c id, r.Cookie name = some c ∧ lib.DecodeMulti name c.Value s.codecs = .ok id ∧
          (s.conn.Load db { s.fresh name with ID := id }).1 = (true, none)) ∧
      ((¬ ∃ c id, r.Cookie name = some c ∧ lib.DecodeMulti name c.Value s.codecs = .ok id ∧
          (s.conn.Load db { s.fresh name with ID := id }).1 = (true, none)) →
        (Storage.New lib s db r name).session.IsNew = true) := by
  have key : (Storage.New lib s db r name).session.name = name ∧
      ((Storage.New lib s db r name).session.IsNew = false ↔
        ∃ c id, r.Cookie name = some c ∧ lib.DecodeMulti name c.Value s.codecs = .ok id ∧
          (s.conn.Load db { s.fresh name with ID := id }).1 = (true, none)) := by
    rcases hC : r.Cookie name with _ | c
    · rw [New_no_cookie lib s db r name hC]
      simp [Storage.fresh, sessions.NewSession]
    · rcases hD : lib.DecodeMulti name c.Value s.codecs with e | id
      · cases e with
        | secureCookie isInternal msg =>
          cases isInternal
          · rw [New_rejected lib s db r name c msg hC hD]
            simp [Storage.fresh, sessions.NewSession, hD]
          · rw [New_internal lib s db r name c msg hC hD]
            simp [Storage.fresh, sessions.NewSession, hD]
        | other msg =>
          rw [New_unknown lib s db r name c msg hC hD]
          simp [Storage.fresh, sessions.NewSession, hD]
      · rw [New_decoded lib s db r name c id hC hD]
        rcases hL : s.conn.Load db { s.fresh name with ID := id } with ⟨⟨ok, err⟩, values, db1⟩
        simp only [Storage.fresh, sessions.NewSession] at hL
        cases ok <;> cases err <;> simp [Storage.fresh, sessions.NewSession, hD, hL]
  refine ⟨key.1, key.2, ?_⟩
  intro h
  cases hN : (Storage.New lib s db r name).session.IsNew
  · exact absurd (key.2.mp hN) h
  · rfl

end storage

namespace storage

/-- C6, at a concrete input: the row `abc` is in the in-memory backend and the
request carries the cookie `session=abc`. -/
theorem New_isNew_iff_witness :
    (Storage.New demo.plainLib demo.memStore [("abc", [])] demo.request "session").session.IsNew
      = false :=
  (New_isNew_iff demo.plainLib demo.memStore [("abc", [])] demo.request "session").2.1.mpr
    ⟨demo.cookie, "abc", by decide, rfl, by decide⟩

/-- C8 (as stated, fails on the code): the cookie `session=abc` decodes and the
backend has no row `abc`; `Storage.New` reports the session as new and gives it
the id `abc` of the cookie, and the following `Storage.Save` persists it under
`abc` without drawing a key. -/
theorem New_new_session_keeps_cookie_id :
    (Storage.New demo.plainLib demo.memStore [] demo.request "session").session.IsNew = true ∧
      (Storage.New demo.plainLib demo.memStore [] demo.request "session").session.ID = "abc" ∧
      (Storage.Save demo.plainLib demo.memStore [] demo.key demo.bare []
        (Storage.New demo.plainLib demo.memStore [] demo.request "session").session).trace =
        [Event.connSave
            (Storage.New demo.plainLib demo.memStore [] demo.request "session").session none,
          Event.encodeMulti "session" "abc" none,
          Event.setCookie (sessions.NewCookie "session" "abc" demo.memStore.options)] := by
  decide

/-- C8 (amended): for every request, the session `Storage.New` returns is new with
an empty id when no cookie of that name is present or its decoding fails, and
carries the decoded id whenever the cookie decodes (also when the connector's
`Load` finds no row or fails, and the session is new); the first `Storage.Save`
with positive max-age of a session with that id calls the connector's `Save` on
`toPersist session key`, whose id is the one minted by `Save` from the random key
when that id is empty, and is that id otherwise: the returned session is that
session, the backend is as that call left it, and an error of that call is
returned. -/
theorem New_session_id_origin {σ : Type} (lib : securecookie.Lib) (s : Storage σ) (db : σ)
    (r : http.Request) (name : String) :
    ((r.Cookie name = none ∨
        ∃ c e, r.Cookie name = some c ∧ lib.DecodeMulti name c.Value s.codecs = .error e) →
        (Storage.New lib s db r name).session.IsNew = true ∧
          (Storage.New lib s db r name).session.ID = "") ∧
      (∀ c id, r.Cookie name = some c → lib.DecodeMulti name c.Value s.codecs = .ok id →
        (Storage.New lib s db r name).session.ID = id) ∧
      (∀ (lib2 : securecookie.Lib) (s2 : Storage σ) (db2 : σ) (key : List Byte)
          (r2 : http.Request) (w : http.ResponseWriter) (session : sessions.Session),
        session.ID = (Storage.New lib s db r name).session.ID → 0 < session.Options.MaxAge →
        (toPersist session key).ID =
            (if (Storage.New lib s db r name).session.ID = "" then mintID key
              else (Storage.New lib s db r name).session.ID) ∧
          (Storage.Save lib2 s2 db2 key r2 w session).db =
            (s2.conn.Save db2 (toPersist session key)).2 ∧
          (Storage.Save lib2 s2 db2 key r2 w session).session = toPersist session key ∧
          (∀ e, (s2.conn.Save db2 (toPersist session key)).1 = some e →
            (Storage.Save lib2 s2 db2 key r2 w session).err = some e) ∧
          ∃ post, (Storage.Save lib2 s2 db2 key r2 w session).trace =
              keyCalls session key ++
                Event.connSave (toPersist session key)
                  (s2.conn.Save db2 (toPersist session key)).1 :: post ∧
            ∀ x e, Event.connSave x e ∉ post) := by
  refine ⟨?_, ?_, ?_⟩
  · rintro (hC | ⟨c, e, hC, hD⟩)
    · rw [New_no_cookie lib s db r name hC]
      simp [Storage.fresh, sessions.NewSession]
    · cases e with
      | secureCookie isInternal msg =>
        cases isInternal
        · rw [New_rejected lib s db r name c msg hC hD]
          simp [Storage.fresh, sessions.NewSession]
        · rw [New_internal lib s db r name c msg hC hD]
          simp [Storage.fresh, sessions.NewSession]
      | other msg =>
        rw [New_unknown lib s db r name c msg hC hD]
        simp [Storage.fresh, sessions.NewSession]
  · intro c id hC hD
    rw [New_decoded lib s db r name c id hC hD]
  · intro lib2 s2 db2 key r2 w session hID hAge
    refine ⟨?_, Save_positive lib2 s2 db2 key r2 w session hAge⟩
    rw [toPersist_ID, hID]

/-- C8, at concrete inputs: a request without cookies gives a new session without
id, which `Storage.Save` stores under the id minted from the key; a request with
the cookie `session=abc` and no row `abc` gives a new session which
`Storage.Save` stores under `abc`. -/
theorem New_session_id_origin_witness :
    ((Storage.New demo.plainLib demo.memStore [] demo.bare "session").session.IsNew = true ∧
      (Storage.New demo.plainLib demo.memStore [] demo.bare "session").session.ID = "") ∧
      (Storage.Save demo.plainLib demo.memStore [] demo.key demo.bare []
        (Storage.New demo.plainLib demo.memStore [] demo.request "session").session).session =
        toPersist (Storage.New demo.plainLib demo.memStore [] demo.request "session").session
          demo.key ∧
      (Storage.Save demo.plainLib demo.memStore [] demo.key demo.bare []
        (Storage.New demo.plainLib demo.memStore [] demo.bare "session").session).db =
        [("777777777777777777777777777777777777777777777777777Q", [])] ∧
      (Storage.Save demo.plainLib demo.memStore [] demo.key demo.bare []
        (Storage.New demo.plainLib demo.memStore [] demo.request "session").session).db =
        [("abc", [])] :=
  ⟨(New_session_id_origin demo.plainLib demo.memStore [] demo.bare "session").1
      (Or.inl (by decide)),
   ((New_session_id_origin demo.plainLib demo.memStore [] demo.request "session").2.2
      demo.plainLib demo.memStore [] demo.key demo.bare []
      (Storage.New demo.plainLib demo.memStore [] demo.request "session").session
      rfl (by decide)).2.2.1,
   by decide,
   by decide⟩

/-- C10: assume a codec set that decodes what it encoded to the same id, and a
connector whose `Load` finds the row of an id after its `Save` of a session of
that id returned no error. For every session with positive max-age on which
`Storage.Save` returns no error, `Storage.New` on a request carrying the cookie
that `Save` wrote (a cookie of that name with the value written), for the same
name and on the backend as `Save` left it, returns
a nil error and a session of the same name, with the id of the saved session and
`IsNew` false. -/
theorem Save_then_New_roundtrip {σ : Type} (lib : securecookie.Lib) (s : Storage σ) (db : σ)
    (key : List Byte) (r r2 : http.Request) (w : http.ResponseWriter)
    (session : sessions.Session) (c c2 : http.Cookie)
    (hAge : 0 < session.Options.MaxAge)
    (hOk : (Storage.Save lib s db key r w session).err = none)
    (hCodec : ∀ name id enc, lib.EncodeMulti name id s.codecs = .ok enc →
      lib.DecodeMulti name enc s.codecs = .ok id)
    (hConn : ∀ d d1 x, s.conn.Save d x = (none, d1) →
      ∀ y : sessions.Session, y.ID = x.ID → (s.conn.Load d1 y).1 = (true, none))
    (hW : (Storage.Save lib s db key r w session).w = w ++ [c])
    (hReq : r2.Cookie session.name = some c2) (hVal : c2.Value = c.Value) :
    (Storage.New lib s (Storage.Save lib s db key r w session).db r2 session.name).err = none ∧
      (Storage.New lib s (Storage.Save lib s db key r w session).db r2 session.name).session.name
        = session.name ∧
      (Storage.New lib s (Storage.Save lib s db key r w session).db r2 session.name).session.ID
        = (Storage.Save lib s db key r w session).session.ID ∧
      (Storage.New lib s (Storage.Save lib s db key r w session).db r2 session.name).session.IsNew
        = false := by
  rcases hS : s.conn.Save db (toPersist session key) with ⟨_ | e, db1⟩
  · rcases hE : lib.EncodeMulti (toPersist session key).name (toPersist session key).ID s.codecs
      with e | enc
    · rw [Save_encode_err lib s db db1 key r w session e hAge hS hE] at hOk
      simp at hOk
    · rw [Save_ok lib s db db1 key r w session enc hAge hS hE] at hW ⊢
      have hc : c = sessions.NewCookie (toPersist session key).name enc
          (toPersist session key).Options := by
        have hW2 : http.SetCookie w (sessions.NewCookie (toPersist session key).name enc
            (toPersist session key).Options) = w ++ [c] := hW
        unfold http.SetCookie at hW2
        split at hW2
        · have := List.append_cancel_left hW2
          simpa using this.symm
        · have hlen := congrArg List.length hW2
          simp at hlen
      have hV : c2.Value = enc := by rw [hVal, hc]; rfl
      rw [toPersist_name] at hE
      have hD : lib.DecodeMulti session.name c2.Value s.codecs = .ok (toPersist session key).ID := by
        rw [hV]; exact hCodec _ _ _ hE
      have hL := hConn db db1 (toPersist session key) hS
        { s.fresh session.name with ID := (toPersist session key).ID } rfl
      rw [New_decoded lib s db1 r2 session.name c2 (toPersist session key).ID hReq hD]
      simp only [Storage.fresh, sessions.NewSession] at hL
      simp [hL, Storage.fresh, sessions.NewSession]
  · rw [Save_persist_err lib s db db1 key r w session e hAge hS] at hOk
    simp at hOk

/-- C10, at a concrete input: a session without id saved to the empty in-memory
backend, then read back from a request carrying the value that was written. -/
theorem Save_then_New_roundtrip_witness :
    (Storage.New demo.plainLib demo.memStore
        (Storage.Save demo.plainLib demo.memStore [] demo.key demo.bare [] demo.unsaved).db
        ⟨[{ demo.cookie with Value := mintID demo.key }]⟩ demo.unsaved.name).session.ID =
        (Storage.Save demo.plainLib demo.memStore [] demo.key demo.bare [] demo.unsaved).session.ID ∧
      (Storage.New demo.plainLib demo.memStore
        (Storage.Save demo.plainLib demo.memStore [] demo.key demo.bare [] demo.unsaved).db
        ⟨[{ demo.cookie with Value := mintID demo.key }]⟩ demo.unsaved.name).session.IsNew =
        false :=
  (Save_then_New_roundtrip demo.plainLib demo.memStore [] demo.key demo.bare
      ⟨[{ demo.cookie with Value := mintID demo.key }]⟩ [] demo.unsaved
      (sessions.NewCookie "session" (mintID demo.key) demo.unsaved.Options)
      { demo.cookie with Value := mintID demo.key }
      (by decide) (by decide) (fun _ _ _ h => by cases h; rfl)
      (fun d d1 x h y hy => by
        simp only [demo.memStore, New, Storage.MaxAge, demo.memConn] at h ⊢
        cases h
        simp [hy, List.lookup])
      (by decide) (by decide) (by decide)).2.2

end storage

namespace storage

/-- The id minted from a 32-byte key is the encoding of the key without its four
pad characters: 52 characters of the alphabet. -/
theorem mintID_body (key : List Byte) (h : key.length = 32) :
    ∃ body, base32.Encode key = body ++ List.replicate 4 '=' ∧ mintID key = String.mk body ∧
      body.length = 52 ∧ ∀ ch ∈ body, ch ∈ base32.encodeStd := by
  obtain ⟨body, hb, hl, hm⟩ := base32.Encode_shape 6 key (by omega)
  refine ⟨body, hb, ?_, by omega, hm⟩
  unfold mintID base32.EncodeToString
  rw [hb]
  exact strings.TrimRight_pad body 4 (fun ch hch => (base32.encodeStd_chars ch (hm ch hch)).2)

theorem mintID_inj (key key2 : List Byte) (h : key.length = 32) (h2 : key2.length = 32)
    (hE : mintID key = mintID key2) : key = key2 := by
  obtain ⟨body, hb, hm, _, _⟩ := mintID_body key h
  obtain ⟨body2, hb2, hm2, _, _⟩ := mintID_body key2 h2
  rw [hm, hm2] at hE
  have hbody : body = body2 := by injection hE
  apply base32.Encode_inj 6 key key2 (by omega) (by omega)
  rw [hb, hb2, hbody]

/-- C7 (as stated, fails on the code): the session has max-age 600 and no id, and
`securecookie.GenerateRandomKey(32)` answers nil (the random source failed);
`Storage.Save` hands the connector the session with the empty id, the row is
stored under the empty id and the call returns nil. -/
theorem Save_nil_key_hands_empty_id :
    (toPersist demo.unsaved []).ID = "" ∧
      (Storage.Save demo.plainLib demo.memStore [] [] demo.bare [] demo.unsaved).trace =
        [Event.generateRandomKey [],
         Event.connSave demo.unsaved none,
         Event.encodeMulti "session" "" none,
         Event.setCookie (sessions.NewCookie "session" "" demo.unsaved.Options)] ∧
      (Storage.Save demo.plainLib demo.memStore [] [] demo.bare [] demo.unsaved).db =
        [("", [("sub", "alice")])] ∧
      (Storage.Save demo.plainLib demo.memStore [] [] demo.bare [] demo.unsaved).err = none := by
  decide

/-- C7 (amended): for every session with positive max-age, `Storage.Save` calls
the connector's `Save` once, on the session it was given when that session has an
id, and otherwise on the session with the id `TrimRight(base32(key), "=")` set
after the key is drawn and before the connector is called; the backend is as that
call left it and an error of that call is returned. The id handed over is
non-empty whenever the session had an id or the key has 32 bytes; for every
32-byte key the minted id is 52 characters long, each in `A`-`Z` or `2`-`7`, and
different 32-byte keys give different ids. -/
theorem Save_id_handed_to_connector {σ : Type} (lib : securecookie.Lib) (s : Storage σ)
    (db : σ) (key : List Byte) (r : http.Request) (w : http.ResponseWriter)
    (session : sessions.Session) (hAge : 0 < session.Options.MaxAge) :
    (Storage.Save lib s db key r w session).db = (s.conn.Save db (toPersist session key)).2 ∧
      (Storage.Save lib s db key r w session).session = toPersist session key ∧
      (∀ e, (s.conn.Save db (toPersist session key)).1 = some e →
        (Storage.Save lib s db key r w session).err = some e) ∧
      (∃ post, (Storage.Save lib s db key r w session).trace =
          keyCalls session key ++
            Event.connSave (toPersist session key) (s.conn.Save db (toPersist session key)).1
              :: post ∧
        ∀ x e, Event.connSave x e ∉ post) ∧
      (session.ID ≠ "" → toPersist session key = session ∧ keyCalls session key = []) ∧
      (session.ID = "" →
        toPersist session key =
          { session with ID := strings.TrimRight (base32.EncodeToString key) "=" } ∧
        keyCalls session key = [Event.generateRandomKey key]) ∧
      (session.ID ≠ "" ∨ key.length = 32 → (toPersist session key).ID ≠ "") ∧
      (key.length = 32 →
        (strings.TrimRight (base32.EncodeToString key) "=").length = 52 ∧
        (∀ ch ∈ (strings.TrimRight (base32.EncodeToString key) "=").data, isBase32Char ch) ∧
        (∀ key2 : List Byte, key2.length = 32 →
          strings.TrimRight (base32.EncodeToString key2) "=" =
            strings.TrimRight (base32.EncodeToString key) "=" → key2 = key)) := by
  obtain ⟨h1, h2, h3, h4⟩ := Save_positive lib s db key r w session hAge
  refine ⟨h1, h2, h3, h4, ?_, ?_, ?_, ?_⟩
  · intro h
    simp [toPersist, keyCalls, h]
  · intro h
    simp [toPersist, keyCalls, h, mintID]
  · intro h
    rw [toPersist_ID]
    split
    · rename_i hEmpty
      rcases h with h | hKey
      · exact absurd hEmpty h
      · obtain ⟨body, _, hm, hl, _⟩ := mintID_body key hKey
        intro h0
        have hlen : (mintID key).length = 52 := by rw [hm]; exact hl
        rw [h0] at hlen
        exact absurd hlen (by decide)
    · assumption
  · intro hKey
    obtain ⟨body, _, hm, hl, hmem⟩ := mintID_body key hKey
    have hm2 : strings.TrimRight (base32.EncodeToString key) "=" = String.mk body := hm
    refine ⟨?_, ?_, ?_⟩
    · rw [hm2]; exact hl
    · intro ch hch
      rw [hm2] at hch
      exact (base32.encodeStd_chars ch (hmem ch hch)).1
    · intro key2 h2 hE
      exact mintID_inj key2 key h2 hKey hE

/-- C7, at a concrete input: a session without id, the key of 32 bytes `0xff`, the
empty in-memory backend: the connector is handed the session with the minted id,
and the row is stored under that id. -/
theorem Save_id_handed_to_connector_witness :
    (Storage.Save demo.plainLib demo.memStore [] demo.key demo.bare [] demo.unsaved).db =
        (demo.memStore.conn.Save [] (toPersist demo.unsaved demo.key)).2 ∧
      (toPersist demo.unsaved demo.key).ID ≠ "" ∧
      (strings.TrimRight (base32.EncodeToString demo.key) "=").length = 52 ∧
      (Storage.Save demo.plainLib demo.memStore [] demo.key demo.bare [] demo.unsaved).db =
        [("777777777777777777777777777777777777777777777777777Q", [("sub", "alice")])] ∧
      (Storage.Save demo.plainLib demo.memStore [] demo.key demo.bare []
        demo.unsaved).session.ID = "777777777777777777777777777777777777777777777777777Q" :=
  ⟨(Save_id_handed_to_connector demo.plainLib demo.memStore [] demo.key demo.bare []
      demo.unsaved (by decide)).1,
   (Save_id_handed_to_connector demo.plainLib demo.memStore [] demo.key demo.bare []
      demo.unsaved (by decide)).2.2.2.2.2.2.1 (Or.inr (by decide)),
   ((Save_id_handed_to_connector demo.plainLib demo.memStore [] demo.key demo.bare []
      demo.unsaved (by decide)).2.2.2.2.2.2.2 (by decide)).1,
   by decide,
   by decide⟩

end storage

namespace storage

/-- Every codec `CodecsFromPairs` builds is a `*SecureCookie`. -/
theorem CodecsFromPairs_secure : ∀ (keyPairs : List String),
    ∀ c ∈ CodecsFromPairs keyPairs, ∃ sc, c = securecookie.Codec.secureCookie sc
  | [] => by simp [CodecsFromPairs]
  | [hashKey] => by simp [CodecsFromPairs]
  | hashKey :: blockKey :: rest => by
    intro c hc
    simp only [CodecsFromPairs, List.mem_cons] at hc
    rcases hc with rfl | hc
    · exact ⟨_, rfl⟩
    · exact CodecsFromPairs_secure rest c hc

/-- After `MaxAge age`, a codec that carries a max-age carries `age`, and a codec
carries one exactly when its counterpart before the call did. -/
theorem MaxAge_codecs {σ : Type} (s : Storage σ) (age : Int) :
    (∀ c ∈ (s.MaxAge age).codecs, ∀ m, c.maxAge = some m → m = age) ∧
      ((∀ c ∈ s.codecs, c.maxAge ≠ none) →
        ∀ c ∈ (s.MaxAge age).codecs, c.maxAge = some age) := by
  constructor
  · intro c hc m hm
    simp only [Storage.MaxAge, List.mem_map] at hc
    obtain ⟨c0, _, rfl⟩ := hc
    cases c0 with
    | secureCookie sc =>
      simp [securecookie.Codec.maxAge, securecookie.SecureCookie.MaxAge] at hm
      exact hm.symm
    | custom tag => simp [securecookie.Codec.maxAge] at hm
  · intro hall c hc
    simp only [Storage.MaxAge, List.mem_map] at hc
    obtain ⟨c0, hc0, rfl⟩ := hc
    cases c0 with
    | secureCookie sc => simp [securecookie.Codec.maxAge, securecookie.SecureCookie.MaxAge]
    | custom tag => exact absurd rfl (hall _ hc0)

theorem New_uniform {σ : Type} (conn : Conn σ) (config : SessionConfig) :
    (New conn config).uniform := by
  intro c hc
  unfold New at hc ⊢
  refine (MaxAge_codecs _ _).2 ?_ c hc
  intro c0 hc0
  obtain ⟨sc, rfl⟩ := CodecsFromPairs_secure config.KeyPairs c0 hc0
  simp [securecookie.Codec.maxAge]

theorem MaxAge_uniform {σ : Type} (s : Storage σ) (age : Int) (h : s.uniform) :
    (s.MaxAge age).uniform := by
  intro c hc
  refine (MaxAge_codecs s age).2 ?_ c hc
  intro c0 hc0
  rw [h c0 hc0]
  simp

theorem foldl_MaxAge_uniform {σ : Type} (ages : List Int) :
    ∀ s : Storage σ, s.uniform → (ages.foldl Storage.MaxAge s).uniform := by
  induction ages with
  | nil => intro s h; exact h
  | cons a rest ih => intro s h; exact ih _ (MaxAge_uniform s a h)

/-- C9: `Storage.MaxAge(age)` sets the default options' max-age to `age` and the
max-age of every codec of the set that carries one to `age` (every codec, when all
are `*SecureCookie`s, as those of a store built by `storage.New` are), and changes
neither path, domain, secure flag, http-only flag nor the connector; `storage.New`
uses the configured max-age when it is positive and 1800 otherwise; and after
`storage.New` and any sequence of `MaxAge` calls the default options' max-age is
the max-age of every codec of the set. -/
theorem MaxAge_sets_options_and_codecs {σ : Type} (s : Storage σ) (age : Int) :
    (s.MaxAge age).options = { s.options with MaxAge := age } ∧
      (s.MaxAge age).conn = s.conn ∧
      (s.MaxAge age).codecs.length = s.codecs.length ∧
      (∀ c ∈ (s.MaxAge age).codecs, ∀ m, c.maxAge = some m → m = age) ∧
      ((∀ c ∈ s.codecs, c.maxAge ≠ none) →
        ∀ c ∈ (s.MaxAge age).codecs, c.maxAge = some age) ∧
      (∀ (conn : Conn σ) (config : SessionConfig),
        (New conn config).options.MaxAge =
          (if 0 < config.MaxAge then config.MaxAge else 1800) ∧
        ∀ ages : List Int, ∀ c ∈ (ages.foldl Storage.MaxAge (New conn config)).codecs,
          c.maxAge = some (ages.foldl Storage.MaxAge (New conn config)).options.MaxAge) := by
  refine ⟨rfl, rfl, by simp [Storage.MaxAge], (MaxAge_codecs s age).1, (MaxAge_codecs s age).2, ?_⟩
  intro conn config
  refine ⟨?_, fun ages => foldl_MaxAge_uniform ages _ (New_uniform conn config)⟩
  simp only [New, Storage.MaxAge, defaultSessionMaxAge]
  by_cases h : config.MaxAge ≤ 0
  · have h2 : ¬ 0 < config.MaxAge := not_lt.mpr h
    simp [h, h2]
  · have h2 : 0 < config.MaxAge := not_le.mp h
    simp [h, h2]

/-- C9, at a concrete input: the store built from the example configuration, then
`MaxAge(60)` and `MaxAge(3600)`. -/
theorem MaxAge_sets_options_and_codecs_witness :
    (demo.memStore.MaxAge 3600).options.MaxAge = 3600 ∧
      (∀ c ∈ (demo.memStore.MaxAge 3600).codecs, c.maxAge = some 3600) ∧
      ∀ c ∈ ([60, 3600].foldl Storage.MaxAge (New demo.memConn demo.config)).codecs,
        c.maxAge =
          some ([60, 3600].foldl Storage.MaxAge (New demo.memConn demo.config)).options.MaxAge :=
  ⟨congrArg sessions.Options.MaxAge (MaxAge_sets_options_and_codecs demo.memStore 3600).1,
   (MaxAge_sets_options_and_codecs demo.memStore 3600).2.2.2.2.1 (by decide),
   ((MaxAge_sets_options_and_codecs demo.memStore 3600).2.2.2.2.2 demo.memConn demo.config).2
     [60, 3600]⟩

end storage
